import Mathlib

set_option maxHeartbeats 1000000

/-!
Shallow embedding of the ashina media-segment delivery engine (Rust).

Modelling conventions:
- `f64` values (playback times, presentation timestamps, durations) are
  modelled as exact rationals `ℚ`; the repository only compares and divides
  such values, so exact arithmetic captures the branch structure.
- `usize` is 32 bits wide: the crate is built for the wasm32 target
  (it links `wasm_bindgen` / `web_sys`).  Wrapping arithmetic on `usize`
  is made explicit with `% 2 ^ 32`.
- Fallible operations return `Option` / a result inductive; a Rust
  `panic!` / `.expect(..)` is a distinct outcome from a returned `Err`.
- External collaborators (the `mp4` crate readers, the sink, the network)
  are embedded at their interfaces, marked in the doc comments.
-/

/-! ## src/range.rs — the Interval Set -/

/-- From `src/range.rs`: a collection of closed ranges, stored as pushed,
with no coalescing.  A Rust `RangeInclusive<Idx>` is modelled as a pair
(start, end). -/
structure NRangeInclusive (α : Type) where
  ranges : List (α × α)
deriving DecidableEq

/-- `NRangeInclusive::new` -/
def NRangeInclusive.new {α : Type} : NRangeInclusive α := ⟨[]⟩

/-- `NRangeInclusive::push`: appends the range to the stored vector. -/
def NRangeInclusive.push {α : Type} (s : NRangeInclusive α) (r : α × α) : NRangeInclusive α :=
  ⟨s.ranges ++ [r]⟩

/-- `NRangeInclusive::contains`: linear scan, true as soon as one stored
range contains the item (`RangeInclusive::contains` is
`start <= item && item <= end`). -/
def NRangeInclusive.contains (s : NRangeInclusive ℚ) (item : ℚ) : Bool :=
  s.ranges.any fun r => decide (r.1 ≤ item) && decide (item ≤ r.2)

/-- Pushing a whole list of ranges in order, starting from a given set. -/
def NRangeInclusive.pushAll (s : NRangeInclusive ℚ) (rs : List (ℚ × ℚ)) : NRangeInclusive ℚ :=
  rs.foldl NRangeInclusive.push s

/-! ## src/player.rs — error kinds and the try-load-segment reaction -/

/-- From `src/player.rs`: `enum Error`. -/
inductive PlayerError where
  | QuotaExceededError
  | FetchError
  | DataError
  | HttpCode
  | OutOfRange (next_segment : Nat)
deriving DecidableEq

/-- An event emission of the player loop: either sent straight onto the
internal queue (`self.sndr.send_async`) or scheduled through
`Player::schedule` with a millisecond delay (a `TimeoutFuture`). -/
inductive Emitted where
  | immediate (track : Nat) (next_segment : Option Nat)
  | delayed (track : Nat) (next_segment : Option Nat) (delayMs : Nat)
deriving DecidableEq

/-- From `src/player.rs`, `Player::try_load_segment`: the reaction to one
fetch-then-append attempt for a track.  The network fetch and the sink
append are external suspension points, so their results are inputs.
Returns the list of try-load-segment events emitted and, when the append
error is fatal, the error propagated out of the event loop. -/
def try_load_segment (track : Nat) (fetchResult : Except PlayerError (List Nat))
    (appendResult : Except PlayerError Unit) : List Emitted × Option PlayerError :=
  match fetchResult with
  | .error _ => ([], none)
  | .ok _ =>
    match appendResult with
    | .error .QuotaExceededError => ([.delayed track none 1000], none)
    | .error (.OutOfRange next_segment) => ([.immediate track (some next_segment)], none)
    | .error e => ([], some e)
    | .ok _ => ([.delayed track none 200], none)

/-! ## src/parse.rs — byte readers and box parsing

The parser wraps the fetched bytes in a `BufReader<Cursor<..>>`.  We model
that reader as the full byte list plus a cursor position.  Reads fail
(Rust `io::ErrorKind::UnexpectedEof` through `byteorder`) when the cursor
is at or past the end; absolute seeks (`skip_bytes_to`) never fail for a
cursor, even past the end of the data. -/

structure Reader where
  data : List Nat
  pos : Nat
deriving DecidableEq

/-- The bytes from the cursor position to the end. -/
def Reader.rest (r : Reader) : List Nat := r.data.drop r.pos

/-- `read_u8`: one byte at the cursor, advancing it. -/
def readU8 (r : Reader) : Option (Nat × Reader) :=
  match r.data.drop r.pos with
  | [] => none
  | b :: _ => some (b % 256, ⟨r.data, r.pos + 1⟩)

/-- `read_u16 / read_u24 / read_u32 / read_u64::<BigEndian>`: `n` bytes
big-endian. -/
def readBE : Nat → Reader → Option (Nat × Reader)
  | 0, r => some (0, r)
  | n + 1, r =>
    match readU8 r with
    | none => none
    | some (b, r1) =>
      match readBE n r1 with
      | none => none
      | some (v, r2) => some (b * 256 ^ n + v, r2)

/-- `mp4::skip_bytes_to`: absolute seek, always succeeds on a cursor. -/
def skipBytesTo (p : Nat) (r : Reader) : Reader := ⟨r.data, p⟩

/-- Big-endian encoding of `v` on `n` bytes (the inverse of `readBE`,
used to state round-trip theorems about the parser). -/
def encodeU : Nat → Nat → List Nat
  | 0, _ => []
  | n + 1, v => v / 256 ^ n % 256 :: encodeU n v

/-- From `src/parse.rs`: the fields of `SidxBox`. -/
structure SidxBox where
  version : Nat
  flags : Nat
  reference_id : Nat
  timescale : Nat
  earliest_presentation_time : Nat
  first_offset : Nat
  subseg_durations : List Nat
deriving DecidableEq

/-- `SidxBox::total_duration`: `self.subseg_durations.iter().sum()`, a
`u32` sum, which wraps modulo `2 ^ 32`. -/
def SidxBox.total_duration (b : SidxBox) : Nat :=
  b.subseg_durations.sum % 2 ^ 32

/-- The reference-entry loop of `SidxBox::read_box`
(`for idx in 1..=ref_count`): per entry a skipped `u32`, the `u32`
duration, and another skipped `u32`. -/
def readSidxEntries : Nat → Reader → Option (List Nat × Reader)
  | 0, r => some ([], r)
  | count + 1, r =>
    match readBE 4 r with
    | none => none
    | some (_, r1) =>
      match readBE 4 r1 with
      | none => none
      | some (duration, r2) =>
        match readBE 4 r2 with
        | none => none
        | some (_, r3) =>
          match readSidxEntries count r3 with
          | none => none
          | some (durations, r4) => some (duration :: durations, r4)

/-- From `src/parse.rs`: `SidxBox::read_box(reader, size)`.  The reader
stands just past the 8-byte box header (`mp4::box_start` recovers the box
start as the current position minus `HEADER_SIZE = 8`).  Version 0 reads
32-bit earliest-presentation-time and first-offset fields, any other
version reads 64-bit fields; then a 16-bit reserved field, a 16-bit
reference count, that many entries, and a seek to the end of the box. -/
def sidxReadBox (r : Reader) (size : Nat) : Option (SidxBox × Reader) :=
  let start := r.pos - 8
  match readU8 r with
  | none => none
  | some (version, r1) =>
    match readBE 3 r1 with
    | none => none
    | some (flags, r2) =>
      match readBE 4 r2 with
      | none => none
      | some (reference_id, r3) =>
        match readBE 4 r3 with
        | none => none
        | some (timescale, r4) =>
          match (if version = 0 then readBE 4 r4 else readBE 8 r4) with
          | none => none
          | some (earliest_presentation_time, r5) =>
            match (if version = 0 then readBE 4 r5 else readBE 8 r5) with
            | none => none
            | some (first_offset, r6) =>
              match readBE 2 r6 with
              | none => none
              | some (_, r7) =>
                match readBE 2 r7 with
                | none => none
                | some (ref_count, r8) =>
                  match readSidxEntries ref_count r8 with
                  | none => none
                  | some (subseg_durations, r9) =>
                    some ({ version, flags, reference_id, timescale,
                            earliest_presentation_time, first_offset,
                            subseg_durations },
                          skipBytesTo (start + size) r9)

/-- Byte encoding of the payload of a sidx box (everything after the
8-byte header), mirroring the read order of `SidxBox::read_box`; each
reference entry is (skipped, duration, skipped). -/
def sidxPayloadEnc (version flags reference_id timescale ept fo reserved : Nat)
    (entries : List (Nat × Nat × Nat)) : List Nat :=
  encodeU 1 version ++ encodeU 3 flags ++ encodeU 4 reference_id ++ encodeU 4 timescale
    ++ encodeU (if version = 0 then 4 else 8) ept
    ++ encodeU (if version = 0 then 4 else 8) fo
    ++ encodeU 2 reserved ++ encodeU 2 entries.length
    ++ (entries.map fun e => encodeU 4 e.1 ++ encodeU 4 e.2.1 ++ encodeU 4 e.2.2).flatten

/-- Box type tags (big-endian fourcc values): `sidx` (matched in the
source as `BoxType::UnknownBox(SIDX_BOX)`), `moof`, `mfhd`. -/
def SIDX_BOX : Nat := 0x73696478

def MOOF_BOX : Nat := 0x6d6f6f66

def MFHD_BOX : Nat := 0x6d666864

/-- Modelled from the mp4 crate (external collaborator):
`BoxHeader::read` reads an 8-byte header (32-bit size, 32-bit type tag);
a size of 1 means a 64-bit large size follows, from which the crate
subtracts the header size (failing when it is smaller).  Returns
(type tag, size). -/
def boxHeaderRead (r : Reader) : Option ((Nat × Nat) × Reader) :=
  match readBE 4 r with
  | none => none
  | some (s, r1) =>
    match readBE 4 r1 with
    | none => none
    | some (t, r2) =>
      if s = 1 then
        match readBE 8 r2 with
        | none => none
        | some (largesize, r3) =>
          if largesize < 8 then none else some ((t, largesize - 8), r3)
      else some ((t, s), r2)

/-- Modelled from the mp4 crate (external collaborator):
`MoofBox::read_box` iterates over the children of the moof box; the
repository only consumes `moof.mfhd.sequence_number`, so children other
than `mfhd` are skipped structurally here.  An `mfhd` child holds a
32-bit version/flags word followed by the 32-bit sequence number. -/
def moofChildren : Nat → Reader → Nat → Option Nat → Option (Option Nat × Reader)
  | fuel, r, endPos, seq =>
    if r.pos < endPos then
      match fuel with
      | 0 => none
      | fuel + 1 =>
        match boxHeaderRead r with
        | none => none
        | some ((name, size), r1) =>
          if name = MFHD_BOX then
            match readBE 4 r1 with
            | none => none
            | some (_, r2) =>
              match readBE 4 r2 with
              | none => none
              | some (s, r3) =>
                moofChildren fuel (skipBytesTo (r1.pos - 8 + size) r3) endPos (some s)
          else moofChildren fuel (skipBytesTo (r1.pos - 8 + size) r1) endPos seq
    else some (seq, r)

/-- Modelled from the mp4 crate (external collaborator): the moof box
parse fails when no `mfhd` child is present; on success it yields the
fragment sequence number and seeks to the end of the box. -/
def moofReadBox (r : Reader) (size : Nat) : Option (Nat × Reader) :=
  let start := r.pos - 8
  match moofChildren (r.data.length + size + 1) r (start + size) none with
  | none => none
  | some (none, _) => none
  | some (some seq, _) => some (seq, skipBytesTo (start + size) r)

/-- Outcome of running a Rust function that can return `Ok`, return
`Err` (the `?` operator), panic (`.expect(..)`), or — for the modelled
scan loop — exceed the iteration bound of the model (`stuck`, which on
the real code corresponds to a loop that never advances the cursor). -/
inductive PResult (α : Type) where
  | ok (a : α)
  | err
  | panicked (msg : String)
  | stuck
deriving DecidableEq

/-- From `src/parse.rs`, the scan loop of `SegmentMetadata::parse`:
while the cursor is before the end of the data, read a box header and
dispatch on its type tag; `sidx` and `moof` boxes are parsed, everything
else is skipped via `mp4::skip_box` (a seek to box start + size).  Fuel
bounds the number of iterations of the model; each real iteration either
errors or moves the cursor strictly forward whenever the declared box
size is nonzero, so `data.length + 1` iterations suffice for those. -/
def scanLoop : Nat → Reader → Option SidxBox → Option Nat → PResult (Option SidxBox × Option Nat)
  | fuel, r, sidx, moof =>
    if r.pos < r.data.length then
      match fuel with
      | 0 => .stuck
      | fuel + 1 =>
        match boxHeaderRead r with
        | none => .err
        | some ((name, size), r1) =>
          if name = SIDX_BOX then
            match sidxReadBox r1 size with
            | none => .err
            | some (box, r2) => scanLoop fuel r2 (some box) moof
          else if name = MOOF_BOX then
            match moofReadBox r1 size with
            | none => .err
            | some (seq, r2) => scanLoop fuel r2 sidx (some seq)
          else scanLoop fuel (skipBytesTo (r1.pos - 8 + size) r1) sidx moof
    else .ok (sidx, moof)

/-- From `src/parse.rs`: the fields of `SegmentMetadata` (all stored as
`f64` in the source except the segment number; modelled as `ℚ`). -/
structure SegmentMetadata where
  segment_number : Nat
  earliest_presentation_time : ℚ
  timescale : ℚ
  total_duration : ℚ
deriving DecidableEq

/-- From `src/parse.rs`: `SegmentMetadata::parse`.  Scans the buffer;
after the scan, `sidx.expect("No Sidx box found.")` and
`moof.expect("No moof box found.")` panic — they do not return an
error — when the respective box was never seen. -/
def SegmentMetadata.parse (data : List Nat) : PResult SegmentMetadata :=
  match scanLoop (data.length + 1) ⟨data, 0⟩ none none with
  | .err => .err
  | .stuck => .stuck
  | .panicked m => .panicked m
  | .ok (sidx, moof) =>
    match sidx with
    | none => .panicked "No Sidx box found."
    | some sidx =>
      match moof with
      | none => .panicked "No moof box found."
      | some sequence_number =>
        .ok { segment_number := sequence_number,
              earliest_presentation_time := (sidx.earliest_presentation_time : ℚ),
              timescale := (sidx.timescale : ℚ),
              total_duration := (sidx.total_duration : ℚ) }

/-- Rust `f64 as u64` for a nonnegative-or-NaN-free value modelled as a
rational: truncation toward zero, saturating at the type bounds. -/
def f64toU64 (q : ℚ) : Nat :=
  if q < 0 then 0 else min (Int.toNat ⌊q⌋) (2 ^ 64 - 1)

/-- `SegmentMetadata::pts`: `earliest_presentation_time / timescale`
(seconds). -/
def SegmentMetadata.pts (m : SegmentMetadata) : ℚ :=
  m.earliest_presentation_time / m.timescale

/-- `SegmentMetadata::duration`:
`Duration::from_millis(((total_duration / timescale) * 1000.0) as u64)` —
the whole number of milliseconds. -/
def SegmentMetadata.duration (m : SegmentMetadata) : Nat :=
  f64toU64 (m.total_duration / m.timescale * 1000)

/-- The seconds value of `SegmentMetadata::duration` as consumed by
`append_segment` (`.as_secs_f64()`): milliseconds divided by 1000. -/
def SegmentMetadata.duration_as_secs (m : SegmentMetadata) : ℚ :=
  (m.duration : ℚ) / 1000

/-! ## src/buffer.rs — the Track Buffer Manager

The manager's sink (`SourceBuffer`) and the network are external: the
buffered range set is an input (the source rebuilds it from the sink on
every call), and the sink's reaction to an append is an input. -/

/-- Wrapping subtraction on the 32-bit `usize` of the wasm32 target (the
behaviour of `a - b` in a release build; a debug build panics on
underflow). -/
def usizeSub (a b : Nat) : Nat :=
  (a % 2 ^ 32 + (2 ^ 32 - b % 2 ^ 32)) % 2 ^ 32

/-- The sink's reaction to `SourceBuffer::append_buffer_with_u8_array`
(external collaborator): success, a `QuotaExceededError`, or any other
append error name. -/
inductive SinkAppend where
  | ok
  | quotaExceeded
  | otherError
deriving DecidableEq

instance (α β : Type) [DecidableEq α] [DecidableEq β] : DecidableEq (Except α β)
  | .ok a, .ok b =>
    if h : a = b then isTrue (by rw [h])
    else isFalse (by intro c; injection c; exact h (by assumption))
  | .error a, .error b =>
    if h : a = b then isTrue (by rw [h])
    else isFalse (by intro c; injection c; exact h (by assumption))
  | .ok _, .error _ => isFalse (by intro c; exact Except.noConfusion c)
  | .error _, .ok _ => isFalse (by intro c; exact Except.noConfusion c)

/-- The observable outcome of `TrackBufferManager::append_segment`: the
returned result, whether the sink append was attempted, and the
manager's `current_segment` field afterwards. -/
structure AppendOutcome where
  result : Except PlayerError Unit
  sinkAppended : Bool
  current_segment : Nat
deriving DecidableEq

/-- The tail of `append_segment` once the range check has passed (or was
skipped): attempt the sink append; a `QuotaExceededError` is returned as
such, and any other sink error name is folded into the same
`QuotaExceededError` kind; on success `current_segment` is set to the
parsed segment number. -/
def appendToSink (current_segment : Nat) (md : SegmentMetadata)
    (sink : SinkAppend) : AppendOutcome :=
  match sink with
  | .quotaExceeded =>
    { result := .error .QuotaExceededError, sinkAppended := true, current_segment }
  | .otherError =>
    { result := .error .QuotaExceededError, sinkAppended := true, current_segment }
  | .ok =>
    { result := .ok (), sinkAppended := true, current_segment := md.segment_number }

/-- From `src/buffer.rs`: `TrackBufferManager::append_segment`, given the
metadata parsed from the segment bytes.  When the manager is buffering
(current time not in the buffered ranges) and the segment's range
`[pts, pts + duration]` does not contain the current time, it returns
`Error::OutOfRange` naming `segment_number - 1` (usize arithmetic) when
the current time precedes `pts` and `segment_number + 1` otherwise,
without touching the sink. -/
def append_segment (buffered : NRangeInclusive ℚ) (current_time : ℚ)
    (current_segment : Nat) (md : SegmentMetadata) (sink : SinkAppend) : AppendOutcome :=
  if !(buffered.contains current_time) then
    let lo := md.pts
    let hi := md.pts + md.duration_as_secs
    if !(decide (lo ≤ current_time) && decide (current_time ≤ hi)) then
      let next_segment :=
        if current_time < md.pts then usizeSub md.segment_number 1
        else (md.segment_number + 1) % 2 ^ 32
      { result := .error (.OutOfRange next_segment), sinkAppended := false,
        current_segment }
    else appendToSink current_segment md sink
  else appendToSink current_segment md sink

/-! ## src/manifest.rs — manifest model and URL templates

The decoded manifest structures come from the external `dash_mpd` crate;
only the fields the repository reads are modelled. -/

/-- Modelled from the `dash_mpd` crate (external collaborator): the
fields of `SegmentTemplate` the repository reads. -/
structure SegmentTemplate where
  initialization : Option String
  media : Option String
  startNumber : Option Nat
  timescale : Option Nat
  duration : Option ℚ
deriving DecidableEq

namespace DashMpd

/-- Modelled from the `dash_mpd` crate (external collaborator): the
fields of `Representation` the repository reads.  The name lives in the
`DashMpd` namespace because the bare name is taken by Mathlib. -/
structure Representation where
  id : Option String
  SegmentTemplate : Option SegmentTemplate
  mimeType : Option String
  codecs : Option String
  contentType : Option String
  bandwidth : Option Nat
  width : Option Nat
  height : Option Nat
deriving DecidableEq

end DashMpd

/-- Modelled from the `dash_mpd` crate (external collaborator): the
fields of `AdaptationSet` the repository reads. -/
structure AdaptationSet where
  SegmentTemplate : Option SegmentTemplate
  representations : List DashMpd.Representation
  mimeType : Option String
  codecs : Option String
  contentType : Option String
deriving DecidableEq

/-- Modelled from the `dash_mpd` crate (external collaborator): a period
of the MPD. -/
structure Period where
  adaptations : List AdaptationSet
deriving DecidableEq

/-- From `src/manifest.rs`: `Manifest` wraps the decoded MPD. -/
structure Manifest where
  periods : List Period
deriving DecidableEq

/-- From `src/manifest.rs`: `Track`. -/
structure Track where
  adaptation_segment_template : Option SegmentTemplate
  representation : DashMpd.Representation
  adaptation : AdaptationSet
deriving DecidableEq

/-- `Track::new`. -/
def Track.new (rep : DashMpd.Representation) (adaptation : AdaptationSet) : Track :=
  { representation := rep, adaptation_segment_template := none, adaptation }

/-- From `src/manifest.rs`: `Track::segment_template`, exactly as
written: `self.adaptation_segment_template.as_ref().or(self.representation.SegmentTemplate.as_ref())`. -/
def Track.segment_template (t : Track) : Option SegmentTemplate :=
  t.adaptation_segment_template.or t.representation.SegmentTemplate

/-- From `src/manifest.rs`: `Manifest::tracks` — every representation of
every adaptation set of every period, with
`track.adaptation_segment_template(adaptation.SegmentTemplate.clone())`
applied to each track. -/
def Manifest.tracks (m : Manifest) : List Track :=
  m.periods.flatMap fun period =>
    period.adaptations.flatMap fun adaptation =>
      adaptation.representations.map fun representation =>
        { Track.new representation adaptation with
            adaptation_segment_template := adaptation.SegmentTemplate }

/-- `Track::segment_duration`: `template.duration / template.timescale`,
the timescale defaulting to 1. -/
def Track.segment_duration (t : Track) : Option ℚ :=
  let timescale := ((t.segment_template.bind fun x => x.timescale).getD 1 : Nat)
  (t.segment_template.bind fun x => x.duration).map fun duration =>
    duration / (timescale : ℚ)

/-! ## src/manifest.rs — resolve_url_template

Template strings are modelled as `List Char`. -/

/-- Whether `pat` is an initial segment of `s`. -/
def listStartsWith : List Char → List Char → Bool
  | _, [] => true
  | [], _ :: _ => false
  | a :: s, b :: pat => a == b && listStartsWith s pat

/-- Rust `str::contains` for a literal pattern: some position of `s`
starts with `pat`. -/
def containsSub (s pat : List Char) : Bool :=
  s.tails.any fun t => listStartsWith t pat

/-- The scan of Rust `str::replace`, replacing every non-overlapping
occurrence of `pat` left to right.  The fuel argument only bounds the
recursion structurally; `fuel ≥ s.length` always suffices because every
step consumes at least one character of `s` when `pat` is nonempty. -/
def replaceAllGo : Nat → List Char → List Char → List Char → List Char
  | 0, s, _, _ => s
  | _ + 1, [], _, _ => []
  | fuel + 1, a :: s, pat, val =>
    if pat ≠ [] ∧ listStartsWith (a :: s) pat then
      val ++ replaceAllGo fuel ((a :: s).drop pat.length) pat val
    else a :: replaceAllGo fuel s pat val

/-- Rust `str::replace`: replace every non-overlapping occurrence of
`pat`, scanning left to right. -/
def replaceAll (s pat val : List Char) : List Char :=
  replaceAllGo s.length s pat val

/-- The match of the regex `\$Key%0([\d])d\$` starting exactly at the
head of `s`: returns (captured width digit, total match length). -/
def matchPaddedAt (s key : List Char) : Option (Nat × Nat) :=
  let p1 := '$' :: (key ++ ['%', '0'])
  if listStartsWith s p1 then
    match s.drop p1.length with
    | c :: 'd' :: '$' :: _ =>
      if c.isDigit then some (c.toNat - '0'.toNat, p1.length + 3) else none
    | _ => none
  else none

/-- `Regex::find` / `Regex::captures` for `\$Key%0([\d])d\$`: the
leftmost match, as (start index, width, match length). -/
def findPadded : List Char → List Char → Option (Nat × Nat × Nat)
  | [], _ => none
  | a :: s, key =>
    match matchPaddedAt (a :: s) key with
    | some (width, len) => some (0, width, len)
    | none =>
      match findPadded s key with
      | some (start, width, len) => some (start + 1, width, len)
      | none => none

/-- `format!("{value:0>width$}")`: left-pad `value` with '0' up to
`width`. -/
def padValue (value : List Char) (width : Nat) : List Char :=
  List.replicate (width - value.length) '0' ++ value

/-- The body of the `resolve_url_template` loop for the matching key:
first the literal `$Key$` replacement (all occurrences), then — on the
progressively mutated string — the padded `$Key%0Nd$` replacement of the
leftmost regex match only. -/
def resolveStep (result key value : List Char) : List Char :=
  let ident := '$' :: (key ++ ['$'])
  let r1 := if containsSub result ident then replaceAll result ident value else result
  match findPadded r1 key with
  | some (start, width, len) => r1.take start ++ padValue value width ++ r1.drop (start + len)
  | none => r1

/-- The keys of `URL_TEMPLATE_IDS`. -/
def URL_TEMPLATE_IDS : List (List Char) :=
  ["RepresentationID".toList, "Number".toList, "Time".toList, "Bandwidth".toList]

/-- From `src/manifest.rs`: `resolve_url_template(template, (key, value))`
— iterate over `URL_TEMPLATE_IDS`, skipping keys other than the given
one, applying both replacement passes for the matching key. -/
def resolve_url_template (template : List Char) (key value : List Char) : List Char :=
  URL_TEMPLATE_IDS.foldl
    (fun result k => if k = key then resolveStep result k value else result) template

/-! ## Concrete fixtures used by evaluation theorems -/

/-- A representation-level segment template, distinguishable from the
adaptation-level one. -/
def repTemplate : SegmentTemplate :=
  { initialization := some "rep-init", media := some "rep-media",
    startNumber := some 1, timescale := some 1, duration := some 10 }

/-- An adaptation-level segment template. -/
def adapTemplate : SegmentTemplate :=
  { initialization := some "adap-init", media := some "adap-media",
    startNumber := some 1, timescale := some 1, duration := some 10 }

/-- A representation that carries its own segment template. -/
def demoRepresentation : DashMpd.Representation :=
  { id := some "v1", SegmentTemplate := some repTemplate,
    mimeType := some "video/mp4", codecs := some "avc1.64001f",
    contentType := none, bandwidth := none, width := none, height := none }

/-- An adaptation set that also carries a segment template. -/
def demoAdaptation : AdaptationSet :=
  { SegmentTemplate := some adapTemplate,
    representations := [demoRepresentation],
    mimeType := none, codecs := none, contentType := some "video" }

/-- A one-period, one-adaptation, one-representation manifest in which
both the representation and the adaptation set declare a segment
template. -/
def demoManifest : Manifest :=
  { periods := [{ adaptations := [demoAdaptation] }] }

/-- Byte encoding of one complete box: an 8-byte header declaring the
box's total size (header included) and its type tag, followed by the
payload.  Used to state theorems about the scan loop over arbitrary
well-formed boxes. -/
def mkBoxEnc (tag : Nat) (payload : List Nat) : List Nat :=
  encodeU 4 (8 + payload.length) ++ encodeU 4 tag ++ payload

/-- A sequence of complete boxes, back to back. -/
def skipBoxesEnc (boxes : List (Nat × List Nat)) : List Nat :=
  (boxes.map fun b => mkBoxEnc b.1 b.2).flatten

/-- Side conditions making `mkBoxEnc` a box the scan loop skips: a
representable type tag that is neither `sidx` nor `moof`, and a
representable declared size. -/
def isSkippedBox (b : Nat × List Nat) : Prop :=
  b.1 < 2 ^ 32 ∧ b.1 ≠ SIDX_BOX ∧ b.1 ≠ MOOF_BOX ∧ 8 + b.2.length < 2 ^ 32

instance (b : Nat × List Nat) : Decidable (isSkippedBox b) := by
  unfold isSkippedBox
  infer_instance

/-- The reference entries of the spec's sidx example: two entries with
durations 500 and 500 (the skipped per-entry words are 1 and 0). -/
def sidxDemoEntries : List (Nat × Nat × Nat) := [(1, 500, 0), (1, 500, 0)]

/-- A complete sidx box: 8-byte header (size 56, tag `sidx`) followed by
a version-0 payload with timescale 1000 and the demo entries. -/
def sidxDemoBytes : List Nat :=
  [0, 0, 0, 56, 0x73, 0x69, 0x64, 0x78] ++ sidxPayloadEnc 0 0 1 1000 0 0 0 sidxDemoEntries

/-- The box `sidxDemoBytes` denotes. -/
def demoSidx : SidxBox :=
  { version := 0, flags := 0, reference_id := 1, timescale := 1000,
    earliest_presentation_time := 0, first_offset := 0,
    subseg_durations := [500, 500] }

/-! ## Theorems -/

/-- Claim C1 (code evaluation): `Manifest::tracks` builds a track whose
representation carries its own segment template, yet
`Track::segment_template` returns the adaptation-level template, because
the source computes
`adaptation_segment_template.or(representation.SegmentTemplate)` — the
fallback order is reversed with respect to the spec and to the field's
own doc comment. -/
theorem c1_segment_template_prefers_adaptation :
    (demoManifest.tracks).map Track.segment_template = [some adapTemplate]
    ∧ demoRepresentation.SegmentTemplate = some repTemplate
    ∧ adapTemplate ≠ repTemplate := by
  refine ⟨rfl, rfl, by decide⟩

/-- Claim C8: literal `$Key$` replacement happens first, then the padded
`$Key%0Nd$` replacement with zero-padding to the captured width; the
spec's concrete instances: `$Number%03d$` with 7 gives `007`, `$Number$`
with 42 gives `42`, and in a template holding both forms of the same key
both substitutions fire. -/
theorem c8_resolve_url_template_padding :
    resolve_url_template "ab$Number%03d$cd".toList "Number".toList "7".toList
        = "ab007cd".toList
    ∧ resolve_url_template "x$Number$y".toList "Number".toList "42".toList
        = "x42y".toList
    ∧ resolve_url_template "$Number$-$Number%05d$".toList "Number".toList "7".toList
        = "7-00007".toList := by
  refine ⟨by decide, by decide, by decide⟩

/-- When the key matches neither literally nor through the padded
pattern, one pass of the resolver leaves the string unchanged. -/
theorem resolveStep_of_no_match (s key value : List Char)
    (h1 : containsSub s ('$' :: (key ++ ['$'])) = false)
    (h2 : findPadded s key = none) :
    resolveStep s key value = s := by
  simp only [resolveStep, h1, Bool.false_eq_true, if_false, h2]

/-- For the `RepresentationID` key the resolver loop reduces to the
single matching pass. -/
theorem resolve_url_template_rid (t value : List Char) :
    resolve_url_template t "RepresentationID".toList value
      = resolveStep t "RepresentationID".toList value := by
  simp only [resolve_url_template, URL_TEMPLATE_IDS, List.foldl_cons, List.foldl_nil]
  rw [if_neg (show ¬("Bandwidth".toList = "RepresentationID".toList) by decide),
    if_neg (show ¬("Time".toList = "RepresentationID".toList) by decide),
    if_neg (show ¬("Number".toList = "RepresentationID".toList) by decide),
    if_pos trivial]

/-- Claim C9 (counterexample): the claim fails as stated.  With a
template holding two padded `RepresentationID` placeholders, resolving
once replaces only the leftmost regex match although the substituted
value introduces no placeholder, so resolving twice differs from
resolving once. -/
theorem c9_counterexample :
    resolve_url_template
        (resolve_url_template "$RepresentationID%01d$$RepresentationID%01d$".toList
          "RepresentationID".toList "7".toList)
        "RepresentationID".toList "7".toList
      ≠ resolve_url_template "$RepresentationID%01d$$RepresentationID%01d$".toList
          "RepresentationID".toList "7".toList := by
  decide

/-- Claim C9 (amended): template resolution is idempotent once no
placeholder for the key remains: if after one resolution of
`RepresentationID` the result holds neither the literal
`$RepresentationID$` nor any padded `$RepresentationID%0Nd$`
placeholder, resolving again with the same value changes nothing. -/
theorem c9_resolve_idempotent_when_resolved (t value : List Char)
    (h1 : containsSub (resolve_url_template t "RepresentationID".toList value)
            ('$' :: ("RepresentationID".toList ++ ['$'])) = false)
    (h2 : findPadded (resolve_url_template t "RepresentationID".toList value)
            "RepresentationID".toList = none) :
    resolve_url_template (resolve_url_template t "RepresentationID".toList value)
        "RepresentationID".toList value
      = resolve_url_template t "RepresentationID".toList value := by
  rw [resolve_url_template_rid (resolve_url_template t "RepresentationID".toList value) value]
  exact resolveStep_of_no_match _ _ _ h1 h2

/-- Witness for the amended claim C9 at a concrete template. -/
theorem c9_witness :
    resolve_url_template
        (resolve_url_template "seg-$RepresentationID$.mp4".toList
          "RepresentationID".toList "vid1".toList)
        "RepresentationID".toList "vid1".toList
      = resolve_url_template "seg-$RepresentationID$.mp4".toList
          "RepresentationID".toList "vid1".toList :=
  c9_resolve_idempotent_when_resolved "seg-$RepresentationID$.mp4".toList "vid1".toList
    (by decide) (by decide)

theorem usizeSub_one (n : Nat) (h1 : 1 ≤ n) (h2 : n < 2 ^ 32) :
    usizeSub n 1 = n - 1 := by
  unfold usizeSub
  have h32 : (2 : Nat) ^ 32 = 4294967296 := by norm_num
  rw [h32] at h2 ⊢
  rw [Nat.mod_eq_of_lt h2]
  omega

/-- Claim C3: while the manager is buffering, a parsed segment whose
range `[pts, pts + duration]` misses the current target time makes
`append_segment` return an out-of-range error naming `segment_number - 1`
when the target precedes `pts` and `segment_number + 1` otherwise,
without appending to the sink and without moving `current_segment`.
The bounds on the parsed segment number keep the usize arithmetic exact
(see C10 for the `segment_number = 0` underflow). -/
theorem c3_append_segment_out_of_range (buffered : NRangeInclusive ℚ)
    (current_time : ℚ) (current_segment : Nat) (md : SegmentMetadata)
    (sink : SinkAppend) (hb : buffered.contains current_time = false)
    (hr : ¬(md.pts ≤ current_time ∧ current_time ≤ md.pts + md.duration_as_secs))
    (h1 : 1 ≤ md.segment_number) (h2 : md.segment_number + 1 < 2 ^ 32) :
    append_segment buffered current_time current_segment md sink =
      { result := .error (.OutOfRange
          (if current_time < md.pts then md.segment_number - 1
           else md.segment_number + 1)),
        sinkAppended := false, current_segment := current_segment } := by
  unfold append_segment
  rw [hb]
  have hc : (decide (md.pts ≤ current_time)
      && decide (current_time ≤ md.pts + md.duration_as_secs)) = false := by
    rw [Bool.and_eq_false_iff]
    rcases not_and_or.mp hr with h | h
    · exact Or.inl (decide_eq_false h)
    · exact Or.inr (decide_eq_false h)
  simp only [Bool.not_false, if_true, hc]
  by_cases hlt : current_time < md.pts
  · simp only [if_pos hlt, usizeSub_one md.segment_number h1 (by omega)]
  · simp only [if_neg hlt, Nat.mod_eq_of_lt h2]

/-- Witness for C3: target time 0 precedes the parsed segment's
`pts = 10`, so the error names segment 4. -/
theorem c3_witness :
    append_segment ⟨[]⟩ 0 7
        { segment_number := 5, earliest_presentation_time := 10,
          timescale := 1, total_duration := 2 } .ok =
      { result := .error (.OutOfRange 4), sinkAppended := false,
        current_segment := 7 } := by
  have h := c3_append_segment_out_of_range ⟨[]⟩ 0 7
    { segment_number := 5, earliest_presentation_time := 10,
      timescale := 1, total_duration := 2 } .ok (by decide)
    (by norm_num [SegmentMetadata.pts, SegmentMetadata.duration_as_secs,
      SegmentMetadata.duration, f64toU64])
    (by decide) (by decide)
  rw [h]
  norm_num [SegmentMetadata.pts]

/-- Claim C10: when the parsed segment number is 0 and the target time
precedes `pts`, the corrected next-segment computation
`segment_number - 1` underflows the 32-bit usize and wraps to
`2 ^ 32 - 1`; the subtraction only equals the numeric `segment_number - 1`
under the precondition that the parsed segment number is at least 1. -/
theorem c10_next_segment_underflow (buffered : NRangeInclusive ℚ)
    (current_time : ℚ) (current_segment : Nat) (md : SegmentMetadata)
    (sink : SinkAppend) (hb : buffered.contains current_time = false)
    (hlt : current_time < md.pts) (h0 : md.segment_number = 0) :
    (append_segment buffered current_time current_segment md sink).result
        = .error (.OutOfRange (2 ^ 32 - 1))
    ∧ ∀ n : Nat, 1 ≤ n → n < 2 ^ 32 → usizeSub n 1 = n - 1 := by
  constructor
  · unfold append_segment
    rw [hb]
    have hc : (decide (md.pts ≤ current_time)
        && decide (current_time ≤ md.pts + md.duration_as_secs)) = false := by
      rw [Bool.and_eq_false_iff]
      exact Or.inl (decide_eq_false (not_le.mpr hlt))
    simp only [Bool.not_false, if_true, hc, if_pos hlt, h0]
    rfl
  · intro n hn1 hn2
    exact usizeSub_one n hn1 hn2

/-- Witness for C10 at a concrete buffering state with parsed segment
number 0. -/
theorem c10_witness :
    (append_segment ⟨[]⟩ 0 7
        { segment_number := 0, earliest_presentation_time := 10,
          timescale := 1, total_duration := 2 } .ok).result
        = .error (.OutOfRange 4294967295)
    ∧ usizeSub 9 1 = 8 := by
  have h := c10_next_segment_underflow ⟨[]⟩ 0 7
    { segment_number := 0, earliest_presentation_time := 10,
      timescale := 1, total_duration := 2 } .ok (by decide)
    (by norm_num [SegmentMetadata.pts]) rfl
  exact ⟨by rw [h.1]; norm_num, h.2 9 (by decide) (by decide)⟩

/-! ### Reader lemmas for the box parser -/

theorem encodeU_length (n v : Nat) : (encodeU n v).length = n := by
  induction n generalizing v with
  | zero => rfl
  | succ n ih => simp [encodeU, ih]

theorem drop_cons_of_drop (l : List Nat) (p b : Nat) (tail : List Nat)
    (h : l.drop p = b :: tail) : l.drop (p + 1) = tail := by
  have h2 : (l.drop p).drop 1 = l.drop (p + 1) := List.drop_drop 1 p l
  rw [h] at h2
  exact h2.symm

theorem drop_chunk (l : List Nat) (p : Nat) (A B : List Nat)
    (h : l.drop p = A ++ B) : l.drop (p + A.length) = B := by
  have h2 : (l.drop p).drop A.length = l.drop (p + A.length) := List.drop_drop _ _ _
  rw [h, List.drop_left] at h2
  exact h2.symm

/-- Reading `n` big-endian bytes off an `encodeU n v` chunk recovers
`v % 256 ^ n` and advances the cursor by `n`. -/
theorem readBE_encode (n v : Nat) (data : List Nat) (pos : Nat) (tail : List Nat)
    (h : data.drop pos = encodeU n v ++ tail) :
    readBE n ⟨data, pos⟩ = some (v % 256 ^ n, ⟨data, pos + n⟩) := by
  induction n generalizing pos tail with
  | zero => simp [readBE, Nat.mod_one]
  | succ n ih =>
    have hcons : data.drop pos = v / 256 ^ n % 256 :: (encodeU n v ++ tail) := by
      simpa [encodeU] using h
    have hlt : v / 256 ^ n % 256 < 256 := Nat.mod_lt _ (by norm_num)
    have h8 : readU8 ⟨data, pos⟩ = some (v / 256 ^ n % 256, ⟨data, pos + 1⟩) := by
      unfold readU8
      rw [hcons]
      simp [Nat.mod_eq_of_lt hlt]
    have hdrop : data.drop (pos + 1) = encodeU n v ++ tail :=
      drop_cons_of_drop _ _ _ _ hcons
    have hrec := ih (pos + 1) tail hdrop
    have hval : v / 256 ^ n % 256 * 256 ^ n + v % 256 ^ n = v % 256 ^ (n + 1) := by
      rw [pow_succ, Nat.mod_mul]
      ring
    simp only [readBE, h8, hrec]
    rw [hval, show pos + 1 + n = pos + (n + 1) from by omega]

/-- Reading `count` reference entries off their encoding recovers the
duration column (modulo `2 ^ 32`). -/
theorem readSidxEntries_encode (entries : List (Nat × Nat × Nat)) (data : List Nat)
    (pos : Nat) (tail : List Nat)
    (h : data.drop pos
      = (entries.map fun e => encodeU 4 e.1 ++ encodeU 4 e.2.1 ++ encodeU 4 e.2.2).flatten
          ++ tail) :
    ∃ p : Nat, readSidxEntries entries.length ⟨data, pos⟩
      = some (entries.map fun e => e.2.1 % 256 ^ 4, ⟨data, p⟩) := by
  induction entries generalizing pos tail with
  | nil => exact ⟨pos, rfl⟩
  | cons e es ih =>
    have h0 : data.drop pos
        = encodeU 4 e.1 ++ (encodeU 4 e.2.1 ++ (encodeU 4 e.2.2 ++
            ((es.map fun x => encodeU 4 x.1 ++ encodeU 4 x.2.1 ++ encodeU 4 x.2.2).flatten
              ++ tail))) := by
      simpa [List.append_assoc] using h
    have h1 := readBE_encode 4 e.1 data pos _ h0
    have d1 : data.drop (pos + 4)
        = encodeU 4 e.2.1 ++ (encodeU 4 e.2.2 ++
            ((es.map fun x => encodeU 4 x.1 ++ encodeU 4 x.2.1 ++ encodeU 4 x.2.2).flatten
              ++ tail)) := by
      have hd := drop_chunk data pos _ _ h0
      rwa [encodeU_length] at hd
    have h2 := readBE_encode 4 e.2.1 data (pos + 4) _ d1
    have d2 : data.drop (pos + 4 + 4)
        = encodeU 4 e.2.2 ++
            ((es.map fun x => encodeU 4 x.1 ++ encodeU 4 x.2.1 ++ encodeU 4 x.2.2).flatten
              ++ tail) := by
      have hd := drop_chunk data (pos + 4) _ _ d1
      rwa [encodeU_length] at hd
    have h3 := readBE_encode 4 e.2.2 data (pos + 4 + 4) _ d2
    have d3 : data.drop (pos + 4 + 4 + 4)
        = (es.map fun x => encodeU 4 x.1 ++ encodeU 4 x.2.1 ++ encodeU 4 x.2.2).flatten
            ++ tail := by
      have hd := drop_chunk data (pos + 4 + 4) _ _ d2
      rwa [encodeU_length] at hd
    obtain ⟨p, hp⟩ := ih (pos + 4 + 4 + 4) tail d3
    refine ⟨p, ?_⟩
    simp only [List.length_cons, readSidxEntries, h1, h2, h3, hp, List.map_cons]

/-- Claim C5: `SidxBox::read_box` on an encoded sidx payload recovers
every field: the version byte selects 32-bit (version 0) or 64-bit (any
other version) earliest-presentation-time and first-offset fields, a
16-bit reference count drives the entry loop, the duration column is
collected in order, and `total_duration` is its (u32) sum. -/
theorem c5_sidx_read_box_roundtrip (version flags reference_id timescale ept fo reserved : Nat)
    (entries : List (Nat × Nat × Nat)) (r : Reader) (size : Nat) (tail : List Nat)
    (hv : version < 256) (hf : flags < 2 ^ 24)
    (hrid : reference_id < 2 ^ 32) (hts : timescale < 2 ^ 32)
    (hept : ept < if version = 0 then 2 ^ 32 else 2 ^ 64)
    (hfo : fo < if version = 0 then 2 ^ 32 else 2 ^ 64)
    (hcount : entries.length < 2 ^ 16)
    (hdur : ∀ e ∈ entries, e.2.1 < 2 ^ 32)
    (hrest : r.data.drop r.pos
      = sidxPayloadEnc version flags reference_id timescale ept fo reserved entries ++ tail) :
    sidxReadBox r size =
      some ({ version, flags, reference_id, timescale,
              earliest_presentation_time := ept, first_offset := fo,
              subseg_durations := entries.map fun e => e.2.1 },
            ⟨r.data, r.pos - 8 + size⟩)
    ∧ SidxBox.total_duration
          { version, flags, reference_id, timescale,
            earliest_presentation_time := ept, first_offset := fo,
            subseg_durations := entries.map fun e => e.2.1 }
        = (entries.map fun e => e.2.1).sum % 2 ^ 32 := by
  refine ⟨?_, rfl⟩
  obtain ⟨data, pos⟩ := r
  simp only at hrest
  have hw : (256 : Nat) ^ (if version = 0 then 4 else 8)
      = if version = 0 then 2 ^ 32 else 2 ^ 64 := by
    by_cases h : version = 0 <;> simp [h]
  have h0 : data.drop pos
      = version :: (encodeU 3 flags ++ (encodeU 4 reference_id ++ (encodeU 4 timescale ++
          (encodeU (if version = 0 then 4 else 8) ept ++
            (encodeU (if version = 0 then 4 else 8) fo ++
              (encodeU 2 reserved ++ (encodeU 2 entries.length ++
                ((entries.map fun e => encodeU 4 e.1 ++ encodeU 4 e.2.1 ++ encodeU 4 e.2.2).flatten
                  ++ tail)))))))) := by
    have he1 : encodeU 1 version = [version] := by
      simp [encodeU, Nat.mod_eq_of_lt hv]
    simpa [sidxPayloadEnc, List.append_assoc, he1] using hrest
  have hA : readU8 ⟨data, pos⟩ = some (version, ⟨data, pos + 1⟩) := by
    unfold readU8
    rw [h0]
    simp [Nat.mod_eq_of_lt hv]
  have dA := drop_cons_of_drop _ _ _ _ h0
  have hB : readBE 3 ⟨data, pos + 1⟩ = some (flags, ⟨data, pos + 4⟩) := by
    have h := readBE_encode 3 flags data (pos + 1) _ dA
    rw [show (256 : Nat) ^ 3 = 2 ^ 24 from by norm_num, Nat.mod_eq_of_lt hf] at h
    exact h
  have dB := drop_chunk data (pos + 1) _ _ dA
  rw [encodeU_length] at dB
  have hC : readBE 4 ⟨data, pos + 4⟩ = some (reference_id, ⟨data, pos + 8⟩) := by
    have h := readBE_encode 4 reference_id data (pos + 4) _ dB
    rw [show (256 : Nat) ^ 4 = 2 ^ 32 from by norm_num, Nat.mod_eq_of_lt hrid] at h
    exact h
  have dC := drop_chunk data (pos + 1 + 3) _ _ dB
  rw [encodeU_length] at dC
  have hD : readBE 4 ⟨data, pos + 8⟩ = some (timescale, ⟨data, pos + 12⟩) := by
    have h := readBE_encode 4 timescale data (pos + 8) _ dC
    rw [show (256 : Nat) ^ 4 = 2 ^ 32 from by norm_num, Nat.mod_eq_of_lt hts] at h
    exact h
  have dD := drop_chunk data (pos + 1 + 3 + 4) _ _ dC
  rw [encodeU_length] at dD
  have hE : (if version = 0 then readBE 4 ⟨data, pos + 12⟩ else readBE 8 ⟨data, pos + 12⟩)
      = some (ept, ⟨data, pos + 12 + (if version = 0 then 4 else 8)⟩) := by
    rw [← apply_ite (fun n => readBE n ⟨data, pos + 12⟩) (version = 0) 4 8]
    have h := readBE_encode (if version = 0 then 4 else 8) ept data (pos + 12) _ dD
    rw [hw, Nat.mod_eq_of_lt hept] at h
    exact h
  have dE := drop_chunk data (pos + 1 + 3 + 4 + 4) _ _ dD
  rw [encodeU_length] at dE
  have hF : (if version = 0 then readBE 4 ⟨data, pos + 12 + (if version = 0 then 4 else 8)⟩
        else readBE 8 ⟨data, pos + 12 + (if version = 0 then 4 else 8)⟩)
      = some (fo, ⟨data, pos + 12 + (if version = 0 then 4 else 8)
          + (if version = 0 then 4 else 8)⟩) := by
    rw [← apply_ite (fun n => readBE n ⟨data, pos + 12 + (if version = 0 then 4 else 8)⟩)
      (version = 0) 4 8]
    have h := readBE_encode (if version = 0 then 4 else 8) fo data
      (pos + 12 + (if version = 0 then 4 else 8)) _ dE
    rw [hw, Nat.mod_eq_of_lt hfo] at h
    exact h
  have dF := drop_chunk data (pos + 1 + 3 + 4 + 4 + (if version = 0 then 4 else 8)) _ _ dE
  rw [encodeU_length] at dF
  have hG := readBE_encode 2 reserved data
    (pos + 12 + (if version = 0 then 4 else 8) + (if version = 0 then 4 else 8)) _ dF
  have dG := drop_chunk data
    (pos + 1 + 3 + 4 + 4 + (if version = 0 then 4 else 8) + (if version = 0 then 4 else 8))
    _ _ dF
  rw [encodeU_length] at dG
  have hH : readBE 2 ⟨data, pos + 12 + (if version = 0 then 4 else 8)
        + (if version = 0 then 4 else 8) + 2⟩
      = some (entries.length, ⟨data, pos + 12 + (if version = 0 then 4 else 8)
          + (if version = 0 then 4 else 8) + 2 + 2⟩) := by
    have h := readBE_encode 2 entries.length data
      (pos + 12 + (if version = 0 then 4 else 8) + (if version = 0 then 4 else 8) + 2) _ dG
    rw [show (256 : Nat) ^ 2 = 2 ^ 16 from by norm_num, Nat.mod_eq_of_lt hcount] at h
    exact h
  have dH := drop_chunk data
    (pos + 1 + 3 + 4 + 4 + (if version = 0 then 4 else 8) + (if version = 0 then 4 else 8) + 2)
    _ _ dG
  rw [encodeU_length] at dH
  obtain ⟨p, hI⟩ := readSidxEntries_encode entries data
    (pos + 12 + (if version = 0 then 4 else 8) + (if version = 0 then 4 else 8) + 2 + 2)
    tail dH
  have hmap : (entries.map fun e => e.2.1 % 256 ^ 4) = entries.map fun e => e.2.1 := by
    refine List.map_congr_left fun e he => ?_
    rw [show (256 : Nat) ^ 4 = 2 ^ 32 from by norm_num]
    exact Nat.mod_eq_of_lt (hdur e he)
  simp only [sidxReadBox, hA, hB, hC, hD, hE, hF, hG, hH, hI, hmap, skipBytesTo]

/-- Witness for C5 at the spec's example: a version-0 sidx box with two
reference entries of duration 500 each and timescale 1000 parses to
`demoSidx`, whose `total_duration` is 1000 and whose derived
`SegmentMetadata::duration` is 1000 ms. -/
theorem c5_witness :
    sidxReadBox ⟨sidxDemoBytes, 8⟩ 56 = some (demoSidx, ⟨sidxDemoBytes, 56⟩)
    ∧ demoSidx.total_duration = 1000
    ∧ SegmentMetadata.duration
        { segment_number := 1,
          earliest_presentation_time := (demoSidx.earliest_presentation_time : ℚ),
          timescale := (demoSidx.timescale : ℚ),
          total_duration := (demoSidx.total_duration : ℚ) } = 1000 := by
  refine ⟨?_, by decide, ?_⟩
  · have h := c5_sidx_read_box_roundtrip 0 0 1 1000 0 0 0 sidxDemoEntries
      ⟨sidxDemoBytes, 8⟩ 56 [] (by decide) (by decide) (by decide) (by decide)
      (by decide) (by decide) (by decide) (by decide) (by decide)
    have h1 := h.1
    rw [h1]
    simp [sidxDemoEntries, demoSidx]
  · have hsum : demoSidx.total_duration = 1000 := by decide
    rw [hsum]
    norm_num [SegmentMetadata.duration, f64toU64, demoSidx]
    decide

theorem readU8_none (r : Reader) (h : r.data.length ≤ r.pos) : readU8 r = none := by
  unfold readU8
  rw [List.drop_eq_nil_of_le h]

theorem readBE_none : ∀ (n : Nat) (data : List Nat) (pos : Nat), 0 < n →
    data.length < pos + n → readBE n ⟨data, pos⟩ = none := by
  intro n
  induction n with
  | zero => intro data pos h0 _; omega
  | succ n ih =>
    intro data pos _ h
    by_cases hle : data.length ≤ pos
    · have h8 : readU8 ⟨data, pos⟩ = none := readU8_none _ hle
      simp [readBE, h8]
    · push_neg at hle
      cases hd : data.drop pos with
      | nil =>
        exfalso
        have := List.drop_eq_nil_iff.mp hd
        omega
      | cons b tl =>
        have h8 : readU8 ⟨data, pos⟩ = some (b % 256, ⟨data, pos + 1⟩) := by
          unfold readU8
          rw [hd]
        have hn : 0 < n := by omega
        have hr := ih data (pos + 1) hn (by omega)
        simp [readBE, h8, hr]

theorem readBE_some : ∀ (n : Nat) (data : List Nat) (pos : Nat), pos + n ≤ data.length →
    ∃ v, readBE n ⟨data, pos⟩ = some (v, ⟨data, pos + n⟩) := by
  intro n
  induction n with
  | zero => intro data pos _; exact ⟨0, rfl⟩
  | succ n ih =>
    intro data pos h
    cases hd : data.drop pos with
    | nil =>
      exfalso
      have := List.drop_eq_nil_iff.mp hd
      omega
    | cons b tl =>
      have h8 : readU8 ⟨data, pos⟩ = some (b % 256, ⟨data, pos + 1⟩) := by
        unfold readU8
        rw [hd]
      obtain ⟨v, hv⟩ := ih data (pos + 1) (by omega)
      refine ⟨b % 256 * 256 ^ n + v, ?_⟩
      simp only [readBE, h8, hv]
      rw [show pos + 1 + n = pos + (n + 1) from by omega]

/-- The 8-byte box-header read fails when fewer than 8 bytes remain. -/
theorem boxHeaderRead_none (data : List Nat) (pos : Nat) (h : data.length < pos + 8) :
    boxHeaderRead ⟨data, pos⟩ = none := by
  by_cases h4 : data.length < pos + 4
  · have hr := readBE_none 4 data pos (by norm_num) h4
    simp [boxHeaderRead, hr]
  · push_neg at h4
    obtain ⟨v, hv⟩ := readBE_some 4 data pos h4
    have h2 := readBE_none 4 data (pos + 4) (by norm_num) (by omega)
    simp [boxHeaderRead, hv, h2]

/-- The scan loop exits as soon as the cursor is at or past the end of
the buffer, returning whatever was found so far, for any fuel. -/
theorem scanLoop_exit (fuel : Nat) (data : List Nat) (pos : Nat)
    (sidx : Option SidxBox) (moof : Option Nat) (h : data.length ≤ pos) :
    scanLoop fuel ⟨data, pos⟩ sidx moof = .ok (sidx, moof) := by
  rw [scanLoop.eq_def]
  dsimp only
  rw [if_neg (not_lt.mpr h)]

/-- `SidxBox::read_box` hits end of buffer while reading its fixed
fields whenever fewer than 16 bytes remain at the cursor, whatever the
content. -/
theorem sidxReadBox_eof (data : List Nat) (pos size : Nat)
    (h : data.length < pos + 16) : sidxReadBox ⟨data, pos⟩ size = none := by
  by_cases h1 : data.length ≤ pos
  · have h8 : readU8 ⟨data, pos⟩ = none := readU8_none _ h1
    simp [sidxReadBox, h8]
  · push_neg at h1
    obtain ⟨b, tl, hd⟩ : ∃ b tl, data.drop pos = b :: tl := by
      cases hdd : data.drop pos with
      | nil => exact absurd (List.drop_eq_nil_iff.mp hdd) (by omega)
      | cons x xs => exact ⟨x, xs, rfl⟩
    have h8 : readU8 ⟨data, pos⟩ = some (b % 256, ⟨data, pos + 1⟩) := by
      unfold readU8
      rw [hd]
    by_cases h2 : data.length < pos + 1 + 3
    · have hn := readBE_none 3 data (pos + 1) (by norm_num) (by omega)
      simp [sidxReadBox, h8, hn]
    · push_neg at h2
      obtain ⟨v3, hv3⟩ := readBE_some 3 data (pos + 1) (by omega)
      by_cases h3 : data.length < pos + 1 + 3 + 4
      · have hn := readBE_none 4 data (pos + 1 + 3) (by norm_num) (by omega)
        simp [sidxReadBox, h8, hv3, hn]
      · push_neg at h3
        obtain ⟨v4, hv4⟩ := readBE_some 4 data (pos + 1 + 3) (by omega)
        by_cases h4 : data.length < pos + 1 + 3 + 4 + 4
        · have hn := readBE_none 4 data (pos + 1 + 3 + 4) (by norm_num) (by omega)
          simp [sidxReadBox, h8, hv3, hv4, hn]
        · push_neg at h4
          obtain ⟨v5, hv5⟩ := readBE_some 4 data (pos + 1 + 3 + 4) (by omega)
          have hn4 := readBE_none 4 data (pos + 1 + 3 + 4 + 4) (by norm_num) (by omega)
          have hn8 := readBE_none 8 data (pos + 1 + 3 + 4 + 4) (by norm_num) (by omega)
          have hite : (if b % 256 = 0 then readBE 4 ⟨data, pos + 1 + 3 + 4 + 4⟩
              else readBE 8 ⟨data, pos + 1 + 3 + 4 + 4⟩) = none := by
            by_cases hb : b % 256 = 0 <;> simp [hb, hn4, hn8]
          simp [sidxReadBox, h8, hv3, hv4, hv5, hite]

theorem mkBoxEnc_length (tag : Nat) (payload : List Nat) :
    (mkBoxEnc tag payload).length = 8 + payload.length := by
  simp [mkBoxEnc, encodeU_length]
  omega

theorem length_le_skipBoxesEnc (boxes : List (Nat × List Nat)) :
    boxes.length ≤ (skipBoxesEnc boxes).length := by
  induction boxes with
  | nil => simp [skipBoxesEnc]
  | cons b bs ih =>
    have hlen : (skipBoxesEnc (b :: bs)).length
        = (8 + b.2.length) + (skipBoxesEnc bs).length := by
      simp [skipBoxesEnc, mkBoxEnc, encodeU_length]
      omega
    simp only [List.length_cons, hlen]
    omega

/-- One iteration of the scan loop over a complete box of a type it does
not recognize: the box is skipped via its declared size, and the scan
continues right after it with unchanged state. -/
theorem scanLoop_skip_step (tag : Nat) (payload : List Nat) (data : List Nat)
    (pos fuel : Nat) (sidx : Option SidxBox) (moof : Option Nat) (rest : List Nat)
    (htag32 : tag < 2 ^ 32) (hts : tag ≠ SIDX_BOX) (htm : tag ≠ MOOF_BOX)
    (hsize : 8 + payload.length < 2 ^ 32)
    (h : data.drop pos = mkBoxEnc tag payload ++ rest) :
    scanLoop (fuel + 1) ⟨data, pos⟩ sidx moof
      = scanLoop fuel ⟨data, pos + (8 + payload.length)⟩ sidx moof := by
  have hpos : pos < data.length := by
    by_contra hc
    push_neg at hc
    have hnil := List.drop_eq_nil_of_le hc
    rw [h] at hnil
    simp [mkBoxEnc, encodeU] at hnil
  have hrest1 : data.drop pos
      = encodeU 4 (8 + payload.length) ++ (encodeU 4 tag ++ (payload ++ rest)) := by
    simpa [mkBoxEnc, List.append_assoc] using h
  have hs := readBE_encode 4 (8 + payload.length) data pos _ hrest1
  rw [show (256 : Nat) ^ 4 = 2 ^ 32 from by norm_num, Nat.mod_eq_of_lt hsize] at hs
  have d1 := drop_chunk data pos _ _ hrest1
  rw [encodeU_length] at d1
  have ht := readBE_encode 4 tag data (pos + 4) _ d1
  rw [show (256 : Nat) ^ 4 = 2 ^ 32 from by norm_num, Nat.mod_eq_of_lt htag32] at ht
  have hhdr : boxHeaderRead ⟨data, pos⟩
      = some ((tag, 8 + payload.length), ⟨data, pos + 4 + 4⟩) := by
    simp only [boxHeaderRead, hs, ht]
    rw [if_neg (by omega)]
  rw [scanLoop.eq_def]
  dsimp only
  rw [if_pos hpos, hhdr]
  dsimp only [skipBytesTo]
  rw [if_neg hts, if_neg htm]
  rw [show pos + 4 + 4 - 8 + (8 + payload.length) = pos + (8 + payload.length) from by omega]

/-- The scan loop traverses any run of complete unrecognized boxes,
consuming one unit of fuel per box, finding nothing. -/
theorem scanLoop_skip_all (boxes : List (Nat × List Nat)) :
    ∀ (data : List Nat) (pos fuel : Nat) (sidx : Option SidxBox) (moof : Option Nat)
      (rest : List Nat), (∀ b ∈ boxes, isSkippedBox b) →
      data.drop pos = skipBoxesEnc boxes ++ rest → boxes.length ≤ fuel →
      scanLoop fuel ⟨data, pos⟩ sidx moof
        = scanLoop (fuel - boxes.length) ⟨data, pos + (skipBoxesEnc boxes).length⟩ sidx moof := by
  induction boxes with
  | nil => intro data pos fuel sidx moof rest _ _ _; simp [skipBoxesEnc]
  | cons b bs ih =>
    intro data pos fuel sidx moof rest hb h hfuel
    obtain ⟨f, rfl⟩ : ∃ f, fuel = f + 1 := ⟨fuel - 1, by simp at hfuel; omega⟩
    have hb1 : isSkippedBox b := hb b (by simp)
    have h1 : data.drop pos = mkBoxEnc b.1 b.2 ++ (skipBoxesEnc bs ++ rest) := by
      simpa [skipBoxesEnc, List.append_assoc] using h
    rw [scanLoop_skip_step b.1 b.2 data pos f sidx moof _ hb1.1 hb1.2.1 hb1.2.2.1
      hb1.2.2.2 h1]
    have d1 := drop_chunk data pos _ _ h1
    rw [mkBoxEnc_length] at d1
    rw [ih data (pos + (8 + b.2.length)) f sidx moof rest (fun x hx => hb x (by simp [hx]))
      d1 (by simp at hfuel; omega)]
    have hlen : (skipBoxesEnc (b :: bs)).length
        = (8 + b.2.length) + (skipBoxesEnc bs).length := by
      simp [skipBoxesEnc, mkBoxEnc, encodeU_length]
      omega
    rw [hlen, show f + 1 - (b :: bs).length = f - bs.length from by simp,
      show pos + ((8 + b.2.length) + (skipBoxesEnc bs).length)
        = pos + (8 + b.2.length) + (skipBoxesEnc bs).length from by omega]

/-- Claim C6 (amended): `SegmentMetadata::parse` returns an error to its
caller when a box read reaches the end of the buffer mid-read — after
any run of complete skipped boxes, both a truncated box header (fewer
than 8 bytes remaining) and a segment-index box whose remaining bytes
end inside its fixed fields make parse return an error; but when the
scan reaches the end of the buffer without having found the boxes —
after any run of complete skipped boxes, including none — the `.expect`
calls panic, first for the missing segment-index box, rather than
returning an error. -/
theorem c6_parse_eof_errs_and_missing_box_panics :
    (∀ boxes : List (Nat × List Nat), (∀ b ∈ boxes, isSkippedBox b) →
        SegmentMetadata.parse (skipBoxesEnc boxes) = .panicked "No Sidx box found.")
    ∧ (∀ (boxes : List (Nat × List Nat)) (trunc : List Nat),
        (∀ b ∈ boxes, isSkippedBox b) → 0 < trunc.length → trunc.length < 8 →
        SegmentMetadata.parse (skipBoxesEnc boxes ++ trunc) = .err)
    ∧ (∀ (boxes : List (Nat × List Nat)) (s : Nat) (short : List Nat),
        (∀ b ∈ boxes, isSkippedBox b) → s ≠ 1 → s < 2 ^ 32 → short.length < 16 →
        SegmentMetadata.parse
            (skipBoxesEnc boxes ++ (encodeU 4 s ++ (encodeU 4 SIDX_BOX ++ short)))
          = .err) := by
  refine ⟨?_, ?_, ?_⟩
  · intro boxes hb
    have hfuel : boxes.length ≤ (skipBoxesEnc boxes).length + 1 := by
      have := length_le_skipBoxesEnc boxes
      omega
    have hscan : scanLoop ((skipBoxesEnc boxes).length + 1) ⟨skipBoxesEnc boxes, 0⟩ none none
        = .ok (none, none) := by
      rw [scanLoop_skip_all boxes (skipBoxesEnc boxes) 0 _ none none [] hb (by simp) hfuel]
      exact scanLoop_exit _ _ _ _ _ (by simp)
    unfold SegmentMetadata.parse
    rw [hscan]
  · intro boxes trunc hb h0 h8
    have hlen : (skipBoxesEnc boxes ++ trunc).length
        = (skipBoxesEnc boxes).length + trunc.length := List.length_append ..
    have hfuel : boxes.length ≤ (skipBoxesEnc boxes ++ trunc).length + 1 := by
      have := length_le_skipBoxesEnc boxes
      omega
    have hscan : scanLoop ((skipBoxesEnc boxes ++ trunc).length + 1)
        ⟨skipBoxesEnc boxes ++ trunc, 0⟩ none none = .err := by
      rw [scanLoop_skip_all boxes (skipBoxesEnc boxes ++ trunc) 0 _ none none trunc hb
        (by simp) hfuel]
      obtain ⟨f, hf⟩ : ∃ f, (skipBoxesEnc boxes ++ trunc).length + 1 - boxes.length
          = f + 1 := by
        have := length_le_skipBoxesEnc boxes
        exact ⟨(skipBoxesEnc boxes ++ trunc).length - boxes.length, by omega⟩
      rw [hf]
      have hpos : 0 + (skipBoxesEnc boxes).length < (skipBoxesEnc boxes ++ trunc).length := by
        omega
      have hhdr : boxHeaderRead ⟨skipBoxesEnc boxes ++ trunc, 0 + (skipBoxesEnc boxes).length⟩
          = none := by
        apply boxHeaderRead_none
        omega
      rw [scanLoop.eq_def]
      dsimp only
      rw [if_pos hpos, hhdr]
    unfold SegmentMetadata.parse
    rw [hscan]
  · intro boxes s short hb hs1 hs32 hshort
    have hdata : (skipBoxesEnc boxes ++ (encodeU 4 s ++ (encodeU 4 SIDX_BOX ++ short))).length
        = (skipBoxesEnc boxes).length + (8 + short.length) := by
      simp [encodeU_length]
      omega
    have hfuel : boxes.length
        ≤ (skipBoxesEnc boxes ++ (encodeU 4 s ++ (encodeU 4 SIDX_BOX ++ short))).length + 1 := by
      have := length_le_skipBoxesEnc boxes
      omega
    have hscan : scanLoop
        ((skipBoxesEnc boxes ++ (encodeU 4 s ++ (encodeU 4 SIDX_BOX ++ short))).length + 1)
        ⟨skipBoxesEnc boxes ++ (encodeU 4 s ++ (encodeU 4 SIDX_BOX ++ short)), 0⟩ none none
        = .err := by
      rw [scanLoop_skip_all boxes _ 0 _ none none (encodeU 4 s ++ (encodeU 4 SIDX_BOX ++ short))
        hb (by simp) hfuel]
      obtain ⟨f, hf⟩ : ∃ f,
          (skipBoxesEnc boxes ++ (encodeU 4 s ++ (encodeU 4 SIDX_BOX ++ short))).length + 1
            - boxes.length = f + 1 := by
        have := length_le_skipBoxesEnc boxes
        exact ⟨(skipBoxesEnc boxes ++ (encodeU 4 s ++ (encodeU 4 SIDX_BOX ++ short))).length
          - boxes.length, by omega⟩
      rw [hf]
      have hpos : 0 + (skipBoxesEnc boxes).length
          < (skipBoxesEnc boxes ++ (encodeU 4 s ++ (encodeU 4 SIDX_BOX ++ short))).length := by
        omega
      have hdrop : (skipBoxesEnc boxes ++ (encodeU 4 s ++ (encodeU 4 SIDX_BOX ++ short))).drop
          (0 + (skipBoxesEnc boxes).length)
          = encodeU 4 s ++ (encodeU 4 SIDX_BOX ++ short) := by
        have hd := drop_chunk (skipBoxesEnc boxes ++ (encodeU 4 s ++ (encodeU 4 SIDX_BOX ++ short)))
          0 (skipBoxesEnc boxes) (encodeU 4 s ++ (encodeU 4 SIDX_BOX ++ short)) (by simp)
        exact hd
      have hrs := readBE_encode 4 s _ (0 + (skipBoxesEnc boxes).length) _ hdrop
      rw [show (256 : Nat) ^ 4 = 2 ^ 32 from by norm_num, Nat.mod_eq_of_lt hs32] at hrs
      have d1 := drop_chunk _ (0 + (skipBoxesEnc boxes).length) _ _ hdrop
      rw [encodeU_length] at d1
      have hrt := readBE_encode 4 SIDX_BOX _ (0 + (skipBoxesEnc boxes).length + 4) _ d1
      rw [show (256 : Nat) ^ 4 = 2 ^ 32 from by norm_num,
        Nat.mod_eq_of_lt (show SIDX_BOX < 2 ^ 32 from by norm_num [SIDX_BOX])] at hrt
      have hhdr : boxHeaderRead
          ⟨skipBoxesEnc boxes ++ (encodeU 4 s ++ (encodeU 4 SIDX_BOX ++ short)),
            0 + (skipBoxesEnc boxes).length⟩
          = some ((SIDX_BOX, s), ⟨skipBoxesEnc boxes ++ (encodeU 4 s ++ (encodeU 4 SIDX_BOX ++ short)),
              0 + (skipBoxesEnc boxes).length + 4 + 4⟩) := by
        simp only [boxHeaderRead, hrs, hrt]
        rw [if_neg hs1]
      have hsx : sidxReadBox
          ⟨skipBoxesEnc boxes ++ (encodeU 4 s ++ (encodeU 4 SIDX_BOX ++ short)),
            0 + (skipBoxesEnc boxes).length + 4 + 4⟩ s = none := by
        apply sidxReadBox_eof
        omega
      rw [scanLoop.eq_def]
      dsimp only
      rw [if_pos hpos, hhdr]
      dsimp only
      rw [if_pos (rfl : SIDX_BOX = SIDX_BOX), hsx]
    unfold SegmentMetadata.parse
    rw [hscan]

/-- Claim C6 (counterexample): on the empty buffer the scan finds no box
and the code panics through `.expect("No Sidx box found.")` instead of
returning an error, contradicting the claim's "returns an error to its
caller rather than succeeding or diverging". -/
theorem c6_counterexample :
    SegmentMetadata.parse [] = .panicked "No Sidx box found."
    ∧ SegmentMetadata.parse [] ≠ .err :=
  ⟨rfl, by decide⟩

/-- Witness for the amended claim C6 at concrete inputs: one complete
`free` box alone panics for the missing sidx box; followed by a one-byte
truncated header, or by a sidx header whose payload is cut off after
three bytes, the parse returns an error. -/
theorem c6_witness :
    SegmentMetadata.parse (skipBoxesEnc [(0x66726565, [7, 7])])
        = .panicked "No Sidx box found."
    ∧ SegmentMetadata.parse (skipBoxesEnc [(0x66726565, [7, 7])] ++ [109]) = .err
    ∧ SegmentMetadata.parse (skipBoxesEnc [(0x66726565, [7, 7])]
          ++ (encodeU 4 24 ++ (encodeU 4 SIDX_BOX ++ [0, 0, 0]))) = .err :=
  ⟨c6_parse_eof_errs_and_missing_box_panics.1 [(0x66726565, [7, 7])] (by decide),
   c6_parse_eof_errs_and_missing_box_panics.2.1 [(0x66726565, [7, 7])] [109]
     (by decide) (by decide) (by decide),
   c6_parse_eof_errs_and_missing_box_panics.2.2 [(0x66726565, [7, 7])] 24 [0, 0, 0]
     (by decide) (by decide) (by decide) (by decide)⟩

theorem NRangeInclusive.pushAll_ranges (rs : List (ℚ × ℚ)) (s : NRangeInclusive ℚ) :
    (s.pushAll rs).ranges = s.ranges ++ rs := by
  induction rs generalizing s with
  | nil => simp [NRangeInclusive.pushAll]
  | cons r rs ih =>
    simp [NRangeInclusive.pushAll] at ih ⊢
    rw [ih]
    simp [NRangeInclusive.push]

/-- Claim C7: for every sequence of closed ranges pushed into an Interval
Set, in any order, `contains x` is true iff `x` lies within at least one
pushed range. -/
theorem c7_interval_set_contains_iff (rs : List (ℚ × ℚ)) (x : ℚ) :
    ((NRangeInclusive.new).pushAll rs).contains x = true ↔
      ∃ r ∈ rs, r.1 ≤ x ∧ x ≤ r.2 := by
  simp [NRangeInclusive.contains, NRangeInclusive.pushAll_ranges, NRangeInclusive.new,
    List.any_eq_true]

/-- Claim C4: in `Player::try_load_segment`, a quota (capacity) append
error reschedules a try-load-segment with no explicit target after
1000 ms; an out-of-range append error immediately enqueues a
try-load-segment carrying the corrected target with no delay; a
successful append reschedules a try-load-segment with no explicit target
after 200 ms.  In each case nothing is propagated as fatal. -/
theorem c4_try_load_segment_reactions (track n : Nat) (bytes : List Nat) :
    try_load_segment track (.ok bytes) (.error .QuotaExceededError)
        = ([.delayed track none 1000], none)
    ∧ try_load_segment track (.ok bytes) (.error (.OutOfRange n))
        = ([.immediate track (some n)], none)
    ∧ try_load_segment track (.ok bytes) (.ok ())
        = ([.delayed track none 200], none) := by
  exact ⟨rfl, rfl, rfl⟩
